import Mathlib

/-!
Verification development for a sqlite3-backed IPLD blockstore
(file src/sqlite3/blockstore.go).  The store keeps rows of
(storage key, payload); the storage key is the padding-free base64
encoding of the multihash embedded in the content identifier
(function keyFromCid).  The facade operations Has, Get, GetSize,
Put, PutMany, DeleteBlock and the AllKeysChan producer loop are
embedded as pure functions over an association-list model of the
blocks table; engine-level failures of a statement execution are
injected as an explicit parameter, mirroring how database/sql
surfaces them to the Go code.
-/

namespace Sqlite3Bs

/-- Byte sequences (each entry intended below 256). -/
abbrev Bytes := List Nat

/-- Content identifier: version, codec, and the embedded multihash
bytes, the value returned by the Hash method of go-cid. -/
structure Cid where
  version : Nat
  codec : Nat
  hash : Bytes
deriving DecidableEq, Repr

/-- A block: an immutable payload together with the identifier that
names it, as passed at the store boundary. -/
structure Block where
  cid : Cid
  data : Bytes
deriving DecidableEq, Repr

/-- The blocks table: rows of (mh TEXT PRIMARY KEY, bytes BLOB). -/
abbrev Store := List (String × Bytes)

/-! ### Base64 RawStdEncoding (padding-free), as used by keyFromCid
and by the AllKeysChan row decoder. -/

/-- The standard base64 alphabet character for a 6-bit value. -/
def b64char (v : Nat) : Char :=
  if v < 26 then Char.ofNat (65 + v)
  else if v < 52 then Char.ofNat (97 + (v - 26))
  else if v < 62 then Char.ofNat (48 + (v - 52))
  else if v = 62 then '+'
  else '/'

/-- The 6-bit value of a base64 alphabet character, none outside the
alphabet. -/
def b64val (c : Char) : Option Nat :=
  if 'A' ≤ c ∧ c ≤ 'Z' then some (c.toNat - 65)
  else if 'a' ≤ c ∧ c ≤ 'z' then some (c.toNat - 97 + 26)
  else if '0' ≤ c ∧ c ≤ '9' then some (c.toNat - 48 + 52)
  else if c = '+' then some 62
  else if c = '/' then some 63
  else none

/-- Padding-free base64 encoding of a byte list, three bytes at a
time, with a 2- or 3-character final group and no trailing padding,
as encoding base64 RawStdEncoding EncodeToString does. -/
def b64encode : Bytes → List Char
  | [] => []
  | [a] => [b64char (a / 4), b64char (a % 4 * 16)]
  | [a, b] => [b64char (a / 4), b64char (a % 4 * 16 + b / 16), b64char (b % 16 * 4)]
  | a :: b :: c :: rest =>
      b64char (a / 4) :: b64char (a % 4 * 16 + b / 16) ::
        b64char (b % 16 * 4 + c / 64) :: b64char (c % 64) :: b64encode rest

/-- Padding-free base64 decoding, four characters at a time; a final
group of one character or any character outside the alphabet is an
error (none), as encoding base64 RawStdEncoding DecodeString rejects
such input.  Like the non-strict Go decoder, trailing bits of a final
partial group are discarded. -/
def b64decode : List Char → Option Bytes
  | [] => some []
  | [_] => none
  | [c1, c2] =>
      (b64val c1).bind fun v1 => (b64val c2).bind fun v2 =>
        some [v1 * 4 + v2 / 16]
  | [c1, c2, c3] =>
      (b64val c1).bind fun v1 => (b64val c2).bind fun v2 =>
        (b64val c3).bind fun v3 =>
          some [v1 * 4 + v2 / 16, v2 % 16 * 16 + v3 / 4]
  | c1 :: c2 :: c3 :: c4 :: rest =>
      (b64val c1).bind fun v1 => (b64val c2).bind fun v2 =>
        (b64val c3).bind fun v3 => (b64val c4).bind fun v4 =>
          (b64decode rest).bind fun tail =>
            some ((v1 * 4 + v2 / 16) :: (v2 % 16 * 16 + v3 / 4) ::
              (v3 % 4 * 64 + v4) :: tail)

/-- The storage key of a content identifier: the padding-free base64
encoding of its embedded multihash bytes alone (function keyFromCid in
blockstore.go). -/
def keyFromCid (c : Cid) : String :=
  String.mk (b64encode c.hash)

/-! ### The blocks table, modelled as an association list of rows. -/

/-- Point lookup on the table: the payload stored under a key. -/
def lookupKey : Store → String → Option Bytes
  | [], _ => none
  | (k', v) :: rest, k => if k' = k then some v else lookupKey rest k

/-- Row existence, the EXISTS subquery of the has statement. -/
def hasKey (st : Store) (k : String) : Bool :=
  (lookupKey st k).isSome

/-- INSERT OR IGNORE INTO blocks: a new row is appended, an existing
key leaves the table unchanged. -/
def putRow (st : Store) (k : String) (v : Bytes) : Store :=
  if hasKey st k then st else st ++ [(k, v)]

/-- DELETE FROM blocks WHERE mh = key. -/
def deleteRow : Store → String → Store
  | [], _ => []
  | (k', v) :: rest, k =>
      if k' = k then deleteRow rest k else (k', v) :: deleteRow rest k

/-! ### Errors.  Go errors are modelled by their message strings; the
distinguished blockstore.ErrNotFound sentinel is a separate
constructor, since callers compare against it. -/

/-- An error returned by a facade operation: either the distinguished
not-found sentinel of go-ipfs-blockstore, or an engine or wrapped
error carrying a message. -/
inductive BsError where
  | notFound
  | err (msg : String)
deriving DecidableEq, Repr

/-- The message of an error; the not-found sentinel renders as its
fixed go-ipfs-blockstore text. -/
def bsErrMsg : BsError → String
  | .notFound => "blockstore: block not found"
  | .err m => m

/-- Modelled from the spec: the content-identifier type offers a
stable textual rendering for error messages (provided by the external
go-cid collaborator, whose code is not part of this repository).  Any
deterministic rendering of the components serves. -/
def cidStr (c : Cid) : String :=
  "cid:" ++ toString c.version ++ ":" ++ toString c.codec ++ ":" ++
    String.mk (b64encode c.hash)

/-- Error message built by Has on an engine failure, from the format
string in blockstore.go line 128. -/
def hasErrMsg (c : Cid) (e : String) : String :=
  "failed to check for existence of CID " ++ cidStr c ++
    (" in sqlite3 blockstore: " ++ e)

/-- Error message built by Get on an engine failure (line 141). -/
def getErrMsg (c : Cid) (e : String) : String :=
  "failed to get CID " ++ cidStr c ++ (" from sqlite3 blockstore: " ++ e)

/-- Error message built by GetSize on an engine failure (line 154). -/
def getSizeErrMsg (c : Cid) (e : String) : String :=
  "failed to get size of CID " ++ cidStr c ++
    (" from sqlite3 blockstore: " ++ e)

/-- Error message built by Put on an engine failure (line 166). -/
def putErrMsg (c : Cid) (e : String) : String :=
  "failed to put block with CID " ++ cidStr c ++
    (" into sqlite3 blockstore: " ++ e)

/-- Error message built by PutMany around the failing Put (line 174):
it names the index, the total count, the identifier, and wraps the
inner error of Put. -/
def putManyErrMsg (i n : Nat) (c : Cid) (inner : String) : String :=
  "failed to put block " ++ toString i ++ ("/" ++ toString n) ++
    (" with CID " ++ cidStr c) ++ (" into sqlite3 blockstore: " ++ inner)

/-! ### Facade operations.  Each takes the table state and an injected
engine outcome: none means the prepared statement executed normally,
some e means the engine failed with error message e.  Each returns
what the Go function returns, with the table state threaded
explicitly for the mutating operations. -/

/-- Has (blockstore.go lines 124-131): the EXISTS query; an engine
failure is wrapped with the identifier, and the scanned Bool keeps its
zero value false. -/
def Has (st : Store) (c : Cid) (fail : Option String) : Bool × Option BsError :=
  match fail with
  | some e => (false, some (.err (hasErrMsg c e)))
  | none => (hasKey st (keyFromCid c), none)

/-- Get (lines 133-143): no row is the distinguished not-found error,
an engine failure is wrapped, a found row returns the stored payload
unchanged. -/
def Get (st : Store) (c : Cid) (fail : Option String) : Except BsError Bytes :=
  match fail with
  | some e => .error (.err (getErrMsg c e))
  | none =>
      match lookupKey st (keyFromCid c) with
      | none => .error .notFound
      | some data => .ok data

/-- GetSize (lines 145-156): the LENGTH projection; no row returns -1
with the not-found sentinel, an engine failure returns -1 with a
wrapped error. -/
def GetSize (st : Store) (c : Cid) (fail : Option String) : Int × Option BsError :=
  match fail with
  | some e => (-1, some (.err (getSizeErrMsg c e)))
  | none =>
      match lookupKey st (keyFromCid c) with
      | none => (-1, some .notFound)
      | some data => ((data.length : Int), none)

/-- Put (lines 158-169): INSERT OR IGNORE under the key derived from
the block identifier; an engine failure leaves the table unchanged and
is wrapped with the identifier. -/
def Put (st : Store) (b : Block) (fail : Option String) : Store × Option BsError :=
  match fail with
  | some e => (st, some (.err (putErrMsg b.cid e)))
  | none => (putRow st (keyFromCid b.cid) b.data, none)

/-- DeleteBlock (lines 180-183): the delete statement; the engine
error, when any, is returned bare, without wrapping. -/
def DeleteBlock (st : Store) (c : Cid) (fail : Option String) : Store × Option BsError :=
  match fail with
  | some e => (st, some (.err e))
  | none => (deleteRow st (keyFromCid c), none)

/-- The loop of PutMany (lines 171-178): puts each block in input
order, stopping at the first failing Put and wrapping its error with
the index and total count; the engine outcome of each Put is looked up
per block. -/
def putManyLoop (n : Nat) (fail : Block → Option String) :
    Store → Nat → List Block → Store × Option BsError
  | st, _, [] => (st, none)
  | st, i, b :: rest =>
      match Put st b (fail b) with
      | (st', none) => putManyLoop n fail st' (i + 1) rest
      | (_, some ε) => (st, some (.err (putManyErrMsg i n b.cid (bsErrMsg ε))))

/-- PutMany (lines 171-178). -/
def PutMany (st : Store) (l : List Block) (fail : Block → Option String) :
    Store × Option BsError :=
  putManyLoop l.length fail st 0 l

/-- The multicodec code for raw blocks, cid.Raw. -/
def rawCodec : Nat := 0x55

/-- The AllKeysChan producer loop run to completion without
cancellation (lines 200-216): each row key is base64-decoded back to
multihash bytes and wrapped as a version-1 raw-codec identifier; a row
whose key fails to decode is logged and skipped, and enumeration
continues. -/
def allKeys (rows : List String) : List Cid :=
  rows.filterMap fun k => (b64decode k.data).map fun mh => Cid.mk 1 rawCodec mh

/-- The table state after putting a list of blocks in order. -/
def foldPut (st : Store) (l : List Block) : Store :=
  l.foldl (fun s x => putRow s (keyFromCid x.cid) x.data) st

/-! ### Sample values used by the closed witness instances. -/

/-- Sample multihash bytes (a short tagged digest). -/
def mhSample : Bytes := [18, 4, 1, 2, 3, 4]

/-- A version-1 identifier with the dag-cbor codec over the sample
multihash. -/
def cidSampleA : Cid := ⟨1, 0x71, mhSample⟩

/-- A version-1 identifier with the raw codec over the same sample
multihash: same embedded hash, different codec. -/
def cidSampleB : Cid := ⟨1, rawCodec, mhSample⟩

/-- A second identifier with a different multihash. -/
def cidSample2 : Cid := ⟨1, rawCodec, [18, 4, 9, 9, 9, 9]⟩

/-- A sample block named by the dag-cbor flavored identifier. -/
def blockSample : Block := ⟨cidSampleA, [10, 20, 30]⟩

/-- A second sample block. -/
def blockSample2 : Block := ⟨cidSample2, [42]⟩

/-- A third sample block. -/
def blockSample3 : Block := ⟨⟨1, rawCodec, [18, 2, 7, 7]⟩, [7]⟩

/-- An engine-failure oracle that fails exactly on the second sample
block. -/
def failSample : Block → Option String :=
  fun x => if x = blockSample2 then some "boom" else none

/-! ### Codec lemmas. -/

/-- Decoding the alphabet character of a 6-bit value recovers the
value. -/
lemma b64val_b64char {v : Nat} (h : v < 64) : b64val (b64char v) = some v := by
  have key : ∀ w : Fin 64, b64val (b64char w.val) = some w.val := by decide
  exact key ⟨v, h⟩

/-- Decoding an encoded byte list recovers it exactly. -/
lemma b64decode_b64encode (l : Bytes) (h : ∀ x ∈ l, x < 256) :
    b64decode (b64encode l) = some l := by
  induction l using b64encode.induct with
  | case1 => rfl
  | case2 a =>
      have ha : a < 256 := h a (by simp)
      rw [b64encode, b64decode,
        b64val_b64char (by omega), b64val_b64char (by omega)]
      simp only [Option.some_bind, Option.some.injEq, List.cons.injEq, and_true]
      omega
  | case3 a b =>
      have ha : a < 256 := h a (by simp)
      have hb : b < 256 := h b (by simp)
      rw [b64encode, b64decode, b64val_b64char (by omega),
        b64val_b64char (by omega), b64val_b64char (by omega)]
      simp only [Option.some_bind, Option.some.injEq, List.cons.injEq, and_true]
      constructor <;> omega
  | case4 a b c rest ih =>
      have ha : a < 256 := h a (by simp)
      have hb : b < 256 := h b (by simp)
      have hc : c < 256 := h c (by simp)
      have hrest : ∀ x ∈ rest, x < 256 := fun x hx => h x (by simp [hx])
      rw [b64encode, b64decode, b64val_b64char (by omega),
        b64val_b64char (by omega), b64val_b64char (by omega),
        b64val_b64char (by omega), ih hrest]
      simp only [Option.some_bind, Option.some.injEq, List.cons.injEq, and_true]
      refine ⟨by omega, by omega, by omega⟩

/-- A string holding any character outside the base64 alphabet fails
to decode as a whole: no partial bytes are returned. -/
lemma b64decode_eq_none_of_bad_char (s : List Char) :
    (∃ c ∈ s, b64val c = none) → b64decode s = none := by
  induction s using b64decode.induct with
  | case1 => simp
  | case2 c => intro _; rfl
  | case3 c1 c2 =>
      intro h
      rcases h with ⟨c, hc, hval⟩
      simp only [List.mem_cons, List.not_mem_nil, or_false] at hc
      rcases hc with rfl | rfl
      · simp [b64decode, hval]
      · cases h1 : b64val c1 <;> simp [b64decode, hval, h1]
  | case4 c1 c2 c3 =>
      intro h
      rcases h with ⟨c, hc, hval⟩
      simp only [List.mem_cons, List.not_mem_nil, or_false] at hc
      rcases hc with rfl | rfl | rfl
      · simp [b64decode, hval]
      · cases h1 : b64val c1 <;> simp [b64decode, hval, h1]
      · cases h1 : b64val c1 <;> cases h2 : b64val c2 <;>
          simp [b64decode, hval, h1, h2]
  | case5 c1 c2 c3 c4 rest ih =>
      intro h
      rcases h with ⟨c, hc, hval⟩
      simp only [List.mem_cons] at hc
      rcases hc with rfl | rfl | rfl | rfl | hrest
      · simp [b64decode, hval]
      · cases h1 : b64val c1 <;> simp [b64decode, hval, h1]
      · cases h1 : b64val c1 <;> cases h2 : b64val c2 <;>
          simp [b64decode, hval, h1, h2]
      · cases h1 : b64val c1 <;> cases h2 : b64val c2 <;>
          cases h3 : b64val c3 <;> simp [b64decode, hval, h1, h2, h3]
      · have hnone : b64decode rest = none := ih ⟨c, hrest, hval⟩
        cases h1 : b64val c1 <;> cases h2 : b64val c2 <;>
          cases h3 : b64val c3 <;> cases h4 : b64val c4 <;>
          simp [b64decode, hnone, h1, h2, h3, h4]

/-- A string whose length is 1 modulo 4 fails to decode as a whole. -/
lemma b64decode_eq_none_of_bad_length (s : List Char) :
    s.length % 4 = 1 → b64decode s = none := by
  induction s using b64decode.induct with
  | case1 => intro h; simp at h
  | case2 c => intro _; rfl
  | case3 c1 c2 => intro h; simp at h
  | case4 c1 c2 c3 => intro h; simp at h
  | case5 c1 c2 c3 c4 rest ih =>
      intro h
      simp only [List.length_cons] at h
      have hnone : b64decode rest = none := ih (by omega)
      cases h1 : b64val c1 <;> cases h2 : b64val c2 <;>
        cases h3 : b64val c3 <;> cases h4 : b64val c4 <;>
        simp [b64decode, hnone, h1, h2, h3, h4]

/-! ### Table lemmas. -/

/-- Lookup over an appended table takes the left match first. -/
lemma lookupKey_append (s t : Store) (k : String) :
    lookupKey (s ++ t) k =
      match lookupKey s k with
      | some v => some v
      | none => lookupKey t k := by
  induction s with
  | nil => simp [lookupKey]
  | cons r rest ih =>
      obtain ⟨k', v⟩ := r
      by_cases hk : k' = k <;> simp [lookupKey, hk, ih]

/-- After a put, the key of the put maps to the previously stored
payload when the key already existed, and to the new payload
otherwise. -/
lemma lookupKey_putRow_self (st : Store) (k : String) (v : Bytes) :
    lookupKey (putRow st k v) k = some ((lookupKey st k).getD v) := by
  unfold putRow hasKey
  cases h : lookupKey st k with
  | some w => simp [h]
  | none => simp [h, lookupKey_append, lookupKey]

/-- A put never overwrites: any binding present before the put is
still present, unchanged, afterwards. -/
lemma lookupKey_putRow_of_some (st : Store) (k k' : String) (v d : Bytes)
    (h : lookupKey st k' = some d) :
    lookupKey (putRow st k v) k' = some d := by
  unfold putRow hasKey
  cases hk : lookupKey st k with
  | some w => simpa [hk] using h
  | none => simp [hk, lookupKey_append, h]

/-- A put on a key already present leaves the table unchanged. -/
lemma putRow_of_present (st : Store) (k : String) (v : Bytes)
    (h : hasKey st k = true) : putRow st k v = st := by
  simp [putRow, h]

/-- After a delete, the deleted key is absent. -/
lemma lookupKey_deleteRow_self (st : Store) (k : String) :
    lookupKey (deleteRow st k) k = none := by
  induction st with
  | nil => rfl
  | cons r rest ih =>
      obtain ⟨k', v⟩ := r
      by_cases hk : k' = k <;> simp [deleteRow, lookupKey, hk, ih]

/-- Deleting an absent key leaves the table unchanged. -/
lemma deleteRow_of_absent (st : Store) (k : String)
    (h : lookupKey st k = none) : deleteRow st k = st := by
  induction st with
  | nil => rfl
  | cons r rest ih =>
      obtain ⟨k', v⟩ := r
      by_cases hk : k' = k
      · simp [lookupKey, hk] at h
      · simp [lookupKey, hk] at h
        simp [deleteRow, hk, ih h]

/-! ### PutMany loop lemmas. -/

/-- When no put fails, the loop puts every block in order and reports
no error. -/
lemma putManyLoop_of_all_ok (n : Nat) (fail : Block → Option String)
    (l : List Block) : ∀ st i, (∀ x ∈ l, fail x = none) →
    putManyLoop n fail st i l = (foldPut st l, none) := by
  induction l with
  | nil => intro st i _; simp [putManyLoop, foldPut]
  | cons b rest ih =>
      intro st i h
      have hb : fail b = none := h b (by simp)
      have hrest : ∀ x ∈ rest, fail x = none := fun x hx => h x (by simp [hx])
      simp [putManyLoop, Put, hb, ih _ _ hrest, foldPut]

/-- When the first failing put sits after a prefix of successful ones,
the loop persists exactly the prefix, reports the failing position and
identifier, and the blocks after the failure are never attempted. -/
lemma putManyLoop_of_fail (n : Nat) (fail : Block → Option String)
    (b : Block) (e : String) (post : List Block) (hb : fail b = some e) :
    ∀ pre st i, (∀ x ∈ pre, fail x = none) →
    putManyLoop n fail st i (pre ++ b :: post) =
      (foldPut st pre,
       some (.err (putManyErrMsg (i + pre.length) n b.cid (putErrMsg b.cid e)))) := by
  intro pre
  induction pre with
  | nil =>
      intro st i _
      simp [putManyLoop, Put, hb, bsErrMsg, foldPut]
  | cons a pre ih =>
      intro st i h
      have ha : fail a = none := h a (by simp)
      have hpre : ∀ x ∈ pre, fail x = none := fun x hx => h x (by simp [hx])
      have harith : i + 1 + pre.length = i + (pre.length + 1) := by omega
      simp [putManyLoop, Put, ha, ih _ _ hpre, foldPut, harith]

/-! ### AllKeysChan lemmas. -/

/-- Running the producer over rows whose keys are storage keys of
identifiers yields one version-1 raw identifier per row, carrying that
row's multihash. -/
lemma allKeys_map_keyFromCid (cs : List Cid)
    (h : ∀ c ∈ cs, ∀ x ∈ c.hash, x < 256) :
    allKeys (cs.map keyFromCid) =
      cs.map (fun c => Cid.mk 1 rawCodec c.hash) := by
  induction cs with
  | nil => rfl
  | cons c rest ih =>
      have hc : ∀ x ∈ c.hash, x < 256 := h c (by simp)
      have hrest : ∀ c ∈ rest, ∀ x ∈ c.hash, x < 256 :=
        fun c hcm => h c (by simp [hcm])
      have ih' := ih hrest
      simp only [allKeys, List.filterMap_map] at ih'
      simp [allKeys, List.filterMap_map, keyFromCid,
        b64decode_b64encode _ hc, ih']

/-- A row whose key fails to decode is skipped and enumeration
continues with the remaining rows. -/
lemma allKeys_skips_bad_row (pre post : List String) (bad : String)
    (h : b64decode bad.data = none) :
    allKeys (pre ++ bad :: post) = allKeys (pre ++ post) := by
  simp [allKeys, List.filterMap_append, List.filterMap_cons, h]

/-! ### String and infix helpers for the error-context theorems. -/

/-- Appending strings appends their character lists. -/
lemma strData_append (s t : String) : (s ++ t).data = s.data ++ t.data := by
  cases s; cases t; rfl

/-- The middle factor of a three-part string concatenation occurs in
the whole. -/
lemma strInfix_middle (a b c : String) : b.data <:+: (a ++ b ++ c).data := by
  rw [strData_append, strData_append]
  exact List.infix_append a.data b.data c.data

/-- Anything occurring in the left factor of a concatenation occurs in
the whole. -/
lemma strInfix_of_left (a b : String) (l : List Char) (h : l <:+: a.data) :
    l <:+: (a ++ b).data := by
  rw [strData_append]
  exact h.trans (List.prefix_append a.data b.data).isInfix

/-! ### Claim theorems. -/

/-- C1: for every block b and every content identifier whose embedded
multihash equals the multihash of the identifier of b, Put of b
followed by Get under that identifier succeeds and returns the payload
of b unchanged; in particular this holds for the identifier of b
itself, and putting under one codec and getting under another with the
same hash succeeds, because the storage key is derived from the hash
alone.  The store is assumed consistent at the key of b (the key is
absent or already bound to the same payload), which is the stated
trust assumption on callers of a content-addressed store. -/
theorem put_get_roundtrip (st : Store) (b : Block) (c : Cid)
    (hhash : c.hash = b.cid.hash)
    (hconsistent : lookupKey st (keyFromCid b.cid) = none ∨
      lookupKey st (keyFromCid b.cid) = some b.data) :
    Get (Put st b none).1 c none = .ok b.data := by
  have hkey : keyFromCid c = keyFromCid b.cid := by
    simp [keyFromCid, hhash]
  have hlook : lookupKey (putRow st (keyFromCid b.cid) b.data)
      (keyFromCid b.cid) = some b.data := by
    rw [lookupKey_putRow_self]
    rcases hconsistent with h | h <;> simp [h]
  simp [Get, Put, hkey, hlook]

theorem put_get_roundtrip_witness :
    cidSampleB.hash = blockSample.cid.hash ∧
    lookupKey [] (keyFromCid blockSample.cid) = none ∧
    Get (Put [] blockSample none).1 cidSampleB none = .ok blockSample.data :=
  ⟨rfl, rfl, put_get_roundtrip [] blockSample cidSampleB rfl (Or.inl rfl)⟩

/-- C2: putting the same block twice leaves the same table as putting
it once, the second put returns no error, and a put never overwrites a
binding already stored under any key. -/
theorem put_idempotent_no_overwrite (st : Store) (b b' : Block)
    (k : String) (d : Bytes) :
    (Put (Put st b none).1 b none).1 = (Put st b none).1 ∧
    (Put (Put st b none).1 b none).2 = none ∧
    (lookupKey st k = some d → lookupKey (Put st b' none).1 k = some d) := by
  refine ⟨?_, rfl, fun h => lookupKey_putRow_of_some st _ k _ d h⟩
  simp only [Put]
  apply putRow_of_present
  unfold hasKey
  rw [lookupKey_putRow_self]
  rfl

theorem put_idempotent_no_overwrite_witness :
    lookupKey [("k", [1, 2])] "k" = some [1, 2] ∧
    (Put (Put [("k", [1, 2])] blockSample none).1 blockSample none).1 =
      (Put [("k", [1, 2])] blockSample none).1 ∧
    lookupKey (Put [("k", [1, 2])] blockSample2 none).1 "k" = some [1, 2] :=
  ⟨rfl,
   (put_idempotent_no_overwrite [("k", [1, 2])] blockSample blockSample2
     "k" [1, 2]).1,
   (put_idempotent_no_overwrite [("k", [1, 2])] blockSample blockSample2
     "k" [1, 2]).2.2 rfl⟩

/-- C3: for an identifier whose key is not in the table, Has returns
false with no error, Get returns the distinguished not-found error,
and GetSize returns the not-found error with the sentinel size -1. -/
theorem absent_key_results (st : Store) (c : Cid)
    (h : lookupKey st (keyFromCid c) = none) :
    Has st c none = (false, none) ∧
    Get st c none = .error .notFound ∧
    GetSize st c none = (-1, some .notFound) := by
  refine ⟨?_, ?_, ?_⟩ <;> simp [Has, Get, GetSize, hasKey, h]

theorem absent_key_results_witness :
    lookupKey [] (keyFromCid cidSampleA) = none ∧
    Has [] cidSampleA none = (false, none) ∧
    Get [] cidSampleA none = .error .notFound ∧
    GetSize [] cidSampleA none = (-1, some .notFound) :=
  ⟨rfl,
   (absent_key_results [] cidSampleA rfl).1,
   (absent_key_results [] cidSampleA rfl).2.1,
   (absent_key_results [] cidSampleA rfl).2.2⟩

/-- C4: the key codec is a bijection on valid inputs: decoding the
encoding of any byte sequence recovers it exactly (in particular the
storage key of an identifier decodes back to its multihash bytes), and
a malformed key string, one holding a character outside the alphabet
or of length 1 modulo 4, fails to decode as a whole rather than
yielding partial bytes. -/
theorem keyCodec_bijective :
    (∀ h : Bytes, (∀ x ∈ h, x < 256) → b64decode (b64encode h) = some h) ∧
    (∀ c : Cid, (∀ x ∈ c.hash, x < 256) →
      b64decode (keyFromCid c).data = some c.hash) ∧
    (∀ s : List Char, ((∃ ch ∈ s, b64val ch = none) ∨ s.length % 4 = 1) →
      b64decode s = none) := by
  refine ⟨b64decode_b64encode, fun c hc => ?_, fun s hs => ?_⟩
  · simpa [keyFromCid] using b64decode_b64encode c.hash hc
  · rcases hs with h | h
    · exact b64decode_eq_none_of_bad_char s h
    · exact b64decode_eq_none_of_bad_length s h

theorem keyCodec_bijective_witness :
    b64decode (b64encode [18, 4, 1, 2]) = some [18, 4, 1, 2] ∧
    b64decode (keyFromCid cidSampleA).data = some cidSampleA.hash ∧
    b64decode ("T!" : String).data = none ∧
    b64decode ("TWFuT" : String).data = none :=
  ⟨keyCodec_bijective.1 [18, 4, 1, 2] (by decide),
   keyCodec_bijective.2.1 cidSampleA (by decide),
   keyCodec_bijective.2.2 _ (Or.inl (by decide)),
   keyCodec_bijective.2.2 _ (Or.inr (by decide))⟩

/-- C5: PutMany puts each block in input order; when the put of the
block after a prefix of successful puts fails, the returned error
names that position and that block identifier, the prefix stays
persisted, and the blocks after the failure are never attempted (the
result does not depend on them); when no put fails, PutMany puts
everything and returns no error. -/
theorem putMany_first_error (st : Store) (pre post l : List Block)
    (b : Block) (fail : Block → Option String) (e : String) :
    ((∀ x ∈ pre, fail x = none) → fail b = some e →
      PutMany st (pre ++ b :: post) fail =
        (foldPut st pre,
         some (.err (putManyErrMsg pre.length (pre ++ b :: post).length
           b.cid (putErrMsg b.cid e))))) ∧
    ((∀ x ∈ l, fail x = none) → PutMany st l fail = (foldPut st l, none)) := by
  constructor
  · intro hpre hb
    have h := putManyLoop_of_fail (pre ++ b :: post).length fail b e post hb
      pre st 0 hpre
    simpa [PutMany] using h
  · intro h
    exact putManyLoop_of_all_ok l.length fail l st 0 h

theorem putMany_first_error_witness :
    (∀ x ∈ [blockSample], failSample x = none) ∧
    failSample blockSample2 = some "boom" ∧
    PutMany [] ([blockSample] ++ blockSample2 :: [blockSample3]) failSample =
      (foldPut [] [blockSample],
       some (.err (putManyErrMsg [blockSample].length
         ([blockSample] ++ blockSample2 :: [blockSample3]).length
         blockSample2.cid (putErrMsg blockSample2.cid "boom")))) ∧
    PutMany [] [blockSample] failSample = (foldPut [] [blockSample], none) := by
  refine ⟨by decide, by decide, ?_, ?_⟩
  · exact (putMany_first_error [] [blockSample] [blockSample3] [blockSample]
      blockSample2 failSample "boom").1 (by decide) (by decide)
  · exact (putMany_first_error [] [blockSample] [blockSample3] [blockSample]
      blockSample2 failSample "boom").2 (by decide)

/-- C6: deleting an absent key succeeds without error and leaves the
table unchanged; the delete itself reports no error; and after putting
a block and deleting its identifier, Has on that identifier is
false. -/
theorem deleteBlock_idempotent (st : Store) (c : Cid) (b : Block) :
    (lookupKey st (keyFromCid c) = none → DeleteBlock st c none = (st, none)) ∧
    (DeleteBlock st c none).2 = none ∧
    (Has (DeleteBlock (Put st b none).1 b.cid none).1 b.cid none).1 = false := by
  refine ⟨fun h => ?_, rfl, ?_⟩
  · simp [DeleteBlock, deleteRow_of_absent st _ h]
  · simp [Has, DeleteBlock, Put, hasKey, lookupKey_deleteRow_self]

theorem deleteBlock_idempotent_witness :
    lookupKey [] (keyFromCid cidSampleA) = none ∧
    DeleteBlock [] cidSampleA none = ([], none) ∧
    (Has (DeleteBlock (Put [] blockSample none).1 blockSample.cid none).1
      blockSample.cid none).1 = false :=
  ⟨rfl,
   (deleteBlock_idempotent [] cidSampleA blockSample).1 rfl,
   (deleteBlock_idempotent [] cidSampleA blockSample).2.2⟩

/-- C7 counterexample: DeleteBlock does not wrap an engine failure
with the offending identifier: at a concrete identifier and engine
error it returns the bare engine error, whose message does not contain
the identifier rendering. -/
theorem deleteBlock_error_not_wrapped :
    DeleteBlock [] cidSampleA (some "disk I/O error") =
      ([], some (.err "disk I/O error")) ∧
    ¬ (cidStr cidSampleA).data <:+: ("disk I/O error" : String).data := by
  refine ⟨rfl, fun h => absurd h.length_le (by decide)⟩

/-- C7 amended: Has, Get, GetSize and Put wrap an engine-level failure
with full context, a message containing the offending identifier and
wording naming the operation, and surface it synchronously; DeleteBlock
alone returns the underlying engine error bare, without context. -/
theorem singleRowOps_error_context (st : Store) (c : Cid) (b : Block)
    (e : String) :
    ((Has st c (some e)).2 = some (.err (hasErrMsg c e)) ∧
      (cidStr c).data <:+: (hasErrMsg c e).data ∧
      ("check for existence" : String).data <:+: (hasErrMsg c e).data) ∧
    (Get st c (some e) = .error (.err (getErrMsg c e)) ∧
      (cidStr c).data <:+: (getErrMsg c e).data ∧
      ("failed to get CID" : String).data <:+: (getErrMsg c e).data) ∧
    ((GetSize st c (some e)).2 = some (.err (getSizeErrMsg c e)) ∧
      (cidStr c).data <:+: (getSizeErrMsg c e).data ∧
      ("failed to get size of CID" : String).data <:+:
        (getSizeErrMsg c e).data) ∧
    ((Put st b (some e)).2 = some (.err (putErrMsg b.cid e)) ∧
      (cidStr b.cid).data <:+: (putErrMsg b.cid e).data ∧
      ("failed to put block with CID" : String).data <:+:
        (putErrMsg b.cid e).data) ∧
    DeleteBlock st c (some e) = (st, some (.err e)) := by
  refine ⟨⟨rfl, strInfix_middle _ _ _, ?_⟩, ⟨rfl, strInfix_middle _ _ _, ?_⟩,
    ⟨rfl, strInfix_middle _ _ _, ?_⟩, ⟨rfl, strInfix_middle _ _ _, ?_⟩, rfl⟩
  · exact strInfix_of_left _ _ _ (strInfix_of_left
      "failed to check for existence of CID " (cidStr c) _ (by decide))
  · exact strInfix_of_left _ _ _ (strInfix_of_left
      "failed to get CID " (cidStr c) _ (by decide))
  · exact strInfix_of_left _ _ _ (strInfix_of_left
      "failed to get size of CID " (cidStr c) _ (by decide))
  · exact strInfix_of_left _ _ _ (strInfix_of_left
      "failed to put block with CID " (cidStr b.cid) _ (by decide))

/-- C8: run to completion, the enumeration over rows whose keys are
storage keys of identifiers yields exactly one version-1 raw-codec
identifier per stored row, with no omissions, and no duplicates when
the stored multihashes are distinct; a row whose key fails to decode
is skipped while enumeration continues with the remaining rows. -/
theorem allKeysChan_enumeration (cs : List Cid) (pre post : List String)
    (bad : String) :
    ((∀ c ∈ cs, ∀ x ∈ c.hash, x < 256) →
      allKeys (cs.map keyFromCid) =
        cs.map (fun c => Cid.mk 1 rawCodec c.hash) ∧
      ((cs.map Cid.hash).Nodup → (allKeys (cs.map keyFromCid)).Nodup)) ∧
    (b64decode bad.data = none →
      allKeys (pre ++ bad :: post) = allKeys (pre ++ post)) := by
  refine ⟨fun h => ⟨allKeys_map_keyFromCid cs h, fun hnd => ?_⟩,
    fun hbad => allKeys_skips_bad_row pre post bad hbad⟩
  rw [allKeys_map_keyFromCid cs h]
  have hmm : cs.map (fun c => Cid.mk 1 rawCodec c.hash) =
      (cs.map Cid.hash).map (fun mh => Cid.mk 1 rawCodec mh) := by
    simp [List.map_map]
  rw [hmm]
  exact hnd.map fun a b hab => by simpa using congrArg Cid.hash hab

theorem allKeysChan_enumeration_witness :
    allKeys ([cidSampleA, cidSample2].map keyFromCid) =
      [cidSampleA, cidSample2].map (fun c => Cid.mk 1 rawCodec c.hash) ∧
    (allKeys ([cidSampleA, cidSample2].map keyFromCid)).Nodup ∧
    allKeys ([keyFromCid cidSampleA] ++ ("!" : String) :: []) =
      allKeys ([keyFromCid cidSampleA] ++ []) := by
  have h := allKeysChan_enumeration [cidSampleA, cidSample2]
    [keyFromCid cidSampleA] [] "!"
  exact ⟨(h.1 (by decide)).1, (h.1 (by decide)).2 (by decide),
    h.2 (by decide)⟩

/-- C10: whenever GetSize reports an error, not-found or engine-level,
the numeric result is the sentinel -1; callers never receive a
non-negative size paired with an error. -/
theorem getSize_error_sentinel (st : Store) (c : Cid) (fail : Option String)
    (h : (GetSize st c fail).2 ≠ none) : (GetSize st c fail).1 = -1 := by
  cases fail with
  | some e => rfl
  | none =>
      simp only [GetSize] at h ⊢
      cases hl : lookupKey st (keyFromCid c) with
      | none => simp [hl]
      | some d => rw [hl] at h; simp at h

theorem getSize_error_sentinel_witness :
    (GetSize [] cidSampleA none).2 ≠ none ∧
    (GetSize [] cidSampleA none).1 = -1 ∧
    (GetSize [] cidSampleA (some "boom")).2 ≠ none ∧
    (GetSize [] cidSampleA (some "boom")).1 = -1 :=
  ⟨by decide, getSize_error_sentinel [] cidSampleA none (by decide),
   by decide, getSize_error_sentinel [] cidSampleA (some "boom") (by decide)⟩

end Sqlite3Bs
